import Mathlib

/-!
Verification of the animation/layout state machine of the
`ratatui-notifications` toast-notification overlay engine.

The repository ships its enum types (`AnimationPhase`, `Animation`,
`Overflow`, `Timing`, ...) and an extensive test suite; the bodies of the
orchestrator and animation functions (`fnc_update_states`, `orc_manager`,
`orc_stacking`, `fnc_fade_interpolate_color`, `fnc_slide_offscreen_position`,
`cls_notification_state`) are not part of the sources available here, so each
of them is modelled below from the specification, with every behaviour that
the in-repo tests pin down followed exactly.  Times and animation progress
are modelled over `ℚ` (milliseconds); the concrete scenarios exercised by
the claims only use values that are exact in `f32` as well.
-/

/-- Animation phase tracking, from `src/notifications/types/animation_phase.rs`. -/
inductive AnimationPhase where
  | Pending
  | SlidingIn
  | Expanding
  | FadingIn
  | Dwelling
  | SlidingOut
  | Collapsing
  | FadingOut
  | Finished
deriving DecidableEq, Repr

/-- Animation style, from `src/notifications/types/animation.rs`. -/
inductive Animation where
  | Slide
  | ExpandCollapse
  | Fade
deriving DecidableEq, Repr

/-- Overflow behaviour, from `src/notifications/types/overflow.rs`. -/
inductive Overflow where
  | DiscardOldest
  | DiscardNewest
deriving DecidableEq, Repr

/-- Modelled from the spec: the auto-dismiss policy (`AutoDismiss` in
`src/notifications/types`, file absent) — either dismiss after a fixed
duration (milliseconds) or never. -/
inductive AutoDismiss where
  | After (ms : ℚ)
  | Never
deriving DecidableEq, Repr

/-- Animation duration specification, from `src/notifications/types/timing.rs`
(`Duration` modelled as milliseconds in `ℚ`). -/
inductive Timing where
  | Fixed (ms : ℚ)
  | Auto
deriving DecidableEq, Repr

/-- The nine screen anchors (3×3 grid), declared in
`src/notifications/types` (file absent) and described in spec §4.2. -/
inductive Anchor where
  | TopLeft
  | TopCenter
  | TopRight
  | MiddleLeft
  | MiddleCenter
  | MiddleRight
  | BottomLeft
  | BottomCenter
  | BottomRight
deriving DecidableEq, Repr

/-- The eight compass slide directions plus `Default`, declared in
`src/notifications/types` (file absent) and described in spec §4.2. -/
inductive SlideDirection where
  | Default
  | FromLeft
  | FromRight
  | FromTop
  | FromBottom
  | FromTopLeft
  | FromTopRight
  | FromBottomLeft
  | FromBottomRight
deriving DecidableEq, Repr

/-- Modelled from the spec: the animation-relevant part of the immutable
`Notification` configuration (`cls_notification.rs`, file absent).  Content,
styling and sizing fields play no role in the claims settled here and are
omitted. -/
structure Notification where
  animation : Animation
  slide_in_timing : Timing
  slide_out_timing : Timing
  auto_dismiss : AutoDismiss
  anchor : Anchor
deriving DecidableEq, Repr

/-- Modelled from the spec: resolution of a `Timing` to a concrete duration.
`Fixed` timings resolve directly; the `Auto` default is implementation-chosen
(spec §9) — the arbitrary constant 500 ms stands for it here; no claim
exercises `Auto`. -/
def resolve_timing : Timing → ℚ
  | .Fixed ms => ms
  | .Auto => 500

/-- Modelled from the spec (§4.5): the entry phase fixed by the configured
animation kind. -/
def entry_phase : Animation → AnimationPhase
  | .Slide => .SlidingIn
  | .ExpandCollapse => .Expanding
  | .Fade => .FadingIn

/-- Modelled from the spec (§4.5): the exit phase fixed by the configured
animation kind. -/
def exit_phase : Animation → AnimationPhase
  | .Slide => .SlidingOut
  | .ExpandCollapse => .Collapsing
  | .Fade => .FadingOut

/-- Modelled from the spec (§4.5): `remaining_display_time` initialised from
the auto-dismiss policy (`None` if `Never`). -/
def init_remaining : AutoDismiss → Option ℚ
  | .After ms => some ms
  | .Never => none

/-- Modelled from the spec: the mutable per-notification runtime state
(`cls_notification_state.rs`, file absent), restricted to the fields the
claims are about. -/
structure NotificationState where
  id : Nat
  notification : Notification
  current_phase : AnimationPhase
  animation_progress : ℚ
  remaining_display_time : Option ℚ
  created_at : Nat
deriving DecidableEq, Repr

/-- Modelled from the spec: `NotificationState::new` — a freshly constructed
state starts in `Pending` with progress 0; `remaining_display_time` is absent
exactly when auto-dismiss is `Never` (spec §3 invariant). -/
def NotificationState.new (id : Nat) (n : Notification) (created_at : Nat) :
    NotificationState :=
  { id := id
    notification := n
    current_phase := .Pending
    animation_progress := 0
    remaining_display_time := init_remaining n.auto_dismiss
    created_at := created_at }

/-- Modelled from the spec (§4.5): progress accumulation inside the entry
phase.  Progress advances by `dt / duration`; a malformed (zero or negative)
duration completes the phase on the next update (§4.5 failure semantics).
On reaching 1.0 the progress is clamped to exactly 1.0, the phase becomes
`Dwelling` and `remaining_display_time` is initialised from the policy. -/
def step_entry (s : NotificationState) (dt : ℚ) : NotificationState :=
  let d := resolve_timing s.notification.slide_in_timing
  let p := if d ≤ 0 then 1 else s.animation_progress + dt / d
  if 1 ≤ p then
    { s with
      animation_progress := 1
      current_phase := .Dwelling
      remaining_display_time := init_remaining s.notification.auto_dismiss }
  else
    { s with animation_progress := p }

/-- Modelled from the spec (§4.5): while `Dwelling`, a `Some` remaining
display time is decremented by `dt` (floored at zero); on reaching zero the
state transitions to the exit phase with progress reset to 0.0.  A `None`
remaining time (policy `Never`) dwells indefinitely. -/
def step_dwell (s : NotificationState) (dt : ℚ) : NotificationState :=
  match s.remaining_display_time with
  | none => s
  | some r =>
    if r ≤ dt then
      { s with
        remaining_display_time := some 0
        current_phase := exit_phase s.notification.animation
        animation_progress := 0 }
    else
      { s with remaining_display_time := some (r - dt) }

/-- Modelled from the spec (§4.5): progress accumulation inside the exit
phase; on reaching 1.0 the progress is clamped to exactly 1.0 and the phase
becomes `Finished`. -/
def step_exit (s : NotificationState) (dt : ℚ) : NotificationState :=
  let d := resolve_timing s.notification.slide_out_timing
  let p := if d ≤ 0 then 1 else s.animation_progress + dt / d
  if 1 ≤ p then
    { s with animation_progress := 1, current_phase := .Finished }
  else
    { s with animation_progress := p }

/-- Modelled from the spec (§4.5): `NotificationState::update(dt)`.
`Pending` transitions to the entry phase on the very first call, with progress
accumulating from that same call (pinned by
`test_pending_to_sliding_in_for_slide_animation`). -/
def NotificationState.update (s : NotificationState) (dt : ℚ) :
    NotificationState :=
  match s.current_phase with
  | .Pending =>
    step_entry
      { s with
        current_phase := entry_phase s.notification.animation
        animation_progress := 0 } dt
  | .SlidingIn => step_entry s dt
  | .Expanding => step_entry s dt
  | .FadingIn => step_entry s dt
  | .Dwelling => step_dwell s dt
  | .SlidingOut => step_exit s dt
  | .Collapsing => step_exit s dt
  | .FadingOut => step_exit s dt
  | .Finished => s

/-- Modelled from the spec (§4.5): `update_states(all_states, dt)`
(`fnc_update_states.rs`, file absent) — the batch driver applies `update`
to every live state and returns the IDs that transitioned to `Finished`
during this call. -/
def update_states (states : List (Nat × NotificationState)) (dt : ℚ) :
    List (Nat × NotificationState) × List Nat :=
  (states.map fun p => (p.1, p.2.update dt),
   (states.filter fun p =>
      decide ((p.2.update dt).current_phase = .Finished) &&
      !decide (p.2.current_phase = .Finished)).map Prod.fst)

/-- The Slide notification used by the end-to-end lifecycle scenario:
`slide_in = 100 ms`, `dwell = 200 ms`, `slide_out = 100 ms`
(`create_test_notification` in `test_fnc_update_states.rs`). -/
def slideScenarioNotification : Notification :=
  { animation := .Slide
    slide_in_timing := .Fixed 100
    slide_out_timing := .Fixed 100
    auto_dismiss := .After 200
    anchor := .BottomRight }

/-- The state after the first `update(100ms)` call of the end-to-end Slide
scenario: entry complete, dwelling at progress exactly 1. -/
def slideScenarioS1 : NotificationState :=
  { id := 1
    notification := slideScenarioNotification
    current_phase := .Dwelling
    animation_progress := 1
    remaining_display_time := some 200
    created_at := 0 }

/-- The state after the further `update(200ms)` call: dwell exhausted,
sliding out at progress exactly 0. -/
def slideScenarioS2 : NotificationState :=
  { slideScenarioS1 with
    current_phase := .SlidingOut
    animation_progress := 0
    remaining_display_time := some 0 }

/-- The state after the final `update(100ms)` call: exit complete, finished
at progress exactly 1. -/
def slideScenarioS3 : NotificationState :=
  { slideScenarioS2 with
    current_phase := .Finished
    animation_progress := 1 }

lemma slideScenarioS1_phase : slideScenarioS1.current_phase = .Dwelling := rfl

lemma slideScenarioS2_phase : slideScenarioS2.current_phase = .SlidingOut := rfl

lemma slideScenarioS3_phase : slideScenarioS3.current_phase = .Finished := rfl

lemma slideScenario_step1 :
    (NotificationState.new 1 slideScenarioNotification 0).update 100 =
      slideScenarioS1 := by
  norm_num [NotificationState.update, NotificationState.new,
    slideScenarioNotification, step_entry, resolve_timing, entry_phase,
    init_remaining, slideScenarioS1]

lemma slideScenario_step2 :
    slideScenarioS1.update 200 = slideScenarioS2 := by
  norm_num [NotificationState.update, slideScenarioNotification, step_dwell,
    exit_phase, slideScenarioS1, slideScenarioS2]

lemma slideScenario_step3 :
    slideScenarioS2.update 100 = slideScenarioS3 := by
  norm_num [NotificationState.update, slideScenarioNotification, step_exit,
    resolve_timing, slideScenarioS1, slideScenarioS2, slideScenarioS3]

/-- Repeated application of `NotificationState::update`, one call per element
of `dts` (the per-tick elapsed durations). -/
def apply_updates (s : NotificationState) (dts : List ℚ) : NotificationState :=
  dts.foldl NotificationState.update s

/-- The phase is one of the three entry-animation phases. -/
def is_entry (ph : AnimationPhase) : Prop :=
  ph = .SlidingIn ∨ ph = .Expanding ∨ ph = .FadingIn

/-- The phase is one of the three exit-animation phases. -/
def is_exit (ph : AnimationPhase) : Prop :=
  ph = .SlidingOut ∨ ph = .Collapsing ∨ ph = .FadingOut

lemma update_notification (s : NotificationState) (dt : ℚ) :
    (s.update dt).notification = s.notification := by
  obtain ⟨i, n, ph, pr, rem, ca⟩ := s
  cases ph <;>
    simp only [NotificationState.update, step_entry, step_dwell, step_exit] <;>
    (repeat' split) <;> rfl

lemma update_remaining_never (s : NotificationState) (dt : ℚ)
    (hn : s.notification.auto_dismiss = .Never)
    (hr : s.remaining_display_time = none) :
    (s.update dt).remaining_display_time = none := by
  obtain ⟨i, n, ph, pr, rem, ca⟩ := s
  simp only at hn hr
  subst hr
  cases ph <;>
    simp only [NotificationState.update, step_entry, step_dwell, step_exit,
      hn, init_remaining] <;>
    (repeat' split) <;> rfl

lemma update_dwelling_never (s : NotificationState) (dt : ℚ)
    (hph : s.current_phase = .Dwelling)
    (hr : s.remaining_display_time = none) :
    s.update dt = s := by
  obtain ⟨i, n, ph, pr, rem, ca⟩ := s
  simp only at hph hr
  subst hph
  subst hr
  rfl

lemma apply_updates_dwelling_never (s : NotificationState) (dts : List ℚ)
    (hph : s.current_phase = .Dwelling)
    (hr : s.remaining_display_time = none) :
    apply_updates s dts = s := by
  induction dts with
  | nil => rfl
  | cons d ds ih =>
    simp only [apply_updates, List.foldl_cons] at ih ⊢
    rw [update_dwelling_never s d hph hr]
    exact ih

lemma apply_updates_remaining_never (s : NotificationState) (dts : List ℚ)
    (hn : s.notification.auto_dismiss = .Never)
    (hr : s.remaining_display_time = none) :
    (apply_updates s dts).remaining_display_time = none := by
  induction dts generalizing s with
  | nil => exact hr
  | cons d ds ih =>
    simp only [apply_updates, List.foldl_cons] at ih ⊢
    exact ih _ (by rw [update_notification]; exact hn)
      (update_remaining_never s d hn hr)

/-- C1: for a Slide notification with slide_in = 100 ms, dwell = 200 ms,
slide_out = 100 ms, starting from a freshly constructed state (phase
`Pending`): after `update(100ms)` the phase is `Dwelling` with progress
exactly 1.0; after a further `update(200ms)` the phase is `SlidingOut` with
progress exactly 0.0; after a further `update(100ms)` the phase is
`Finished` with progress exactly 1.0, and `update_states` returns that
notification's ID in the finished-ID set of that third call and of no
earlier call. -/
theorem c1_slide_end_to_end_lifecycle :
    update_states [(1, NotificationState.new 1 slideScenarioNotification 0)] 100 =
      ([(1, slideScenarioS1)], []) ∧
    slideScenarioS1.current_phase = .Dwelling ∧
    slideScenarioS1.animation_progress = 1 ∧
    update_states [(1, slideScenarioS1)] 200 = ([(1, slideScenarioS2)], []) ∧
    slideScenarioS2.current_phase = .SlidingOut ∧
    slideScenarioS2.animation_progress = 0 ∧
    update_states [(1, slideScenarioS2)] 100 = ([(1, slideScenarioS3)], [1]) ∧
    slideScenarioS3.current_phase = .Finished ∧
    slideScenarioS3.animation_progress = 1 := by
  refine ⟨?_, rfl, rfl, ?_, rfl, rfl, ?_, rfl, rfl⟩ <;>
    simp [update_states, slideScenario_step1, slideScenario_step2,
      slideScenario_step3, slideScenarioS1_phase, slideScenarioS2_phase,
      slideScenarioS3_phase]

/-- The `AutoDismiss::Never` Slide notification of
`test_dwelling_without_auto_dismiss`. -/
def neverNotification : Notification :=
  { animation := .Slide
    slide_in_timing := .Fixed 100
    slide_out_timing := .Fixed 100
    auto_dismiss := .Never
    anchor := .BottomRight }

/-- C8: a notification whose auto-dismiss policy is `Never` has
`remaining_display_time = None` and, once it has entered the `Dwelling`
phase, never leaves `Dwelling` under any sequence of further `update`
calls, regardless of total elapsed time. -/
theorem c8_never_dwells_forever (n : Notification) (id ca : Nat)
    (hnever : n.auto_dismiss = .Never) :
    (NotificationState.new id n ca).remaining_display_time = none ∧
    ∀ dts dts2 : List ℚ,
      (apply_updates (NotificationState.new id n ca) dts).current_phase =
        .Dwelling →
      (apply_updates (NotificationState.new id n ca) (dts ++ dts2)).current_phase =
        .Dwelling := by
  have hr0 : (NotificationState.new id n ca).remaining_display_time = none := by
    simp [NotificationState.new, hnever, init_remaining]
  refine ⟨hr0, fun dts dts2 hdw => ?_⟩
  have happ : apply_updates (NotificationState.new id n ca) (dts ++ dts2) =
      apply_updates (apply_updates (NotificationState.new id n ca) dts) dts2 := by
    simp [apply_updates, List.foldl_append]
  have hrmid :
      (apply_updates (NotificationState.new id n ca) dts).remaining_display_time =
        none :=
    apply_updates_remaining_never _ _ (by simp [NotificationState.new, hnever]) hr0
  rw [happ, apply_updates_dwelling_never _ _ hdw hrmid]
  exact hdw

/-- Witness for C8: the concrete `AutoDismiss::Never` scenario of
`test_dwelling_without_auto_dismiss` — entry completes after 100 ms, and a
further 1000 ms leaves the notification still `Dwelling`. -/
theorem c8_never_dwells_forever_witness :
    neverNotification.auto_dismiss = .Never ∧
    (NotificationState.new 1 neverNotification 0).remaining_display_time = none ∧
    (apply_updates (NotificationState.new 1 neverNotification 0)
        ([100] ++ [1000])).current_phase = .Dwelling := by
  have h := c8_never_dwells_forever neverNotification 1 0 rfl
  refine ⟨rfl, h.1, h.2 [100] [1000] ?_⟩
  norm_num [apply_updates, NotificationState.update, NotificationState.new,
    neverNotification, step_entry, resolve_timing, entry_phase, init_remaining]

lemma step_entry_bounds (s : NotificationState) (dt : ℚ)
    (h0 : 0 ≤ s.animation_progress) (h1 : s.animation_progress ≤ 1)
    (hdt : 0 ≤ dt) :
    0 ≤ (step_entry s dt).animation_progress ∧
      (step_entry s dt).animation_progress ≤ 1 := by
  unfold step_entry
  dsimp only
  set d := resolve_timing s.notification.slide_in_timing with hddef
  set p : ℚ := if d ≤ 0 then 1 else s.animation_progress + dt / d with hpdef
  by_cases hp : (1 : ℚ) ≤ p
  · rw [if_pos hp]
    exact ⟨zero_le_one, le_refl 1⟩
  · rw [if_neg hp]
    dsimp only
    constructor
    · by_cases hd0 : d ≤ 0
      · rw [hpdef, if_pos hd0]
        exact zero_le_one
      · rw [hpdef, if_neg hd0]
        exact add_nonneg h0 (div_nonneg hdt (le_of_lt (lt_of_not_le hd0)))
    · exact le_of_not_le hp

lemma step_exit_bounds (s : NotificationState) (dt : ℚ)
    (h0 : 0 ≤ s.animation_progress) (h1 : s.animation_progress ≤ 1)
    (hdt : 0 ≤ dt) :
    0 ≤ (step_exit s dt).animation_progress ∧
      (step_exit s dt).animation_progress ≤ 1 := by
  unfold step_exit
  dsimp only
  set d := resolve_timing s.notification.slide_out_timing with hddef
  set p : ℚ := if d ≤ 0 then 1 else s.animation_progress + dt / d with hpdef
  by_cases hp : (1 : ℚ) ≤ p
  · rw [if_pos hp]
    exact ⟨zero_le_one, le_refl 1⟩
  · rw [if_neg hp]
    dsimp only
    constructor
    · by_cases hd0 : d ≤ 0
      · rw [hpdef, if_pos hd0]
        exact zero_le_one
      · rw [hpdef, if_neg hd0]
        exact add_nonneg h0 (div_nonneg hdt (le_of_lt (lt_of_not_le hd0)))
    · exact le_of_not_le hp

lemma update_progress_bounds (s : NotificationState) (dt : ℚ)
    (h0 : 0 ≤ s.animation_progress) (h1 : s.animation_progress ≤ 1)
    (hdt : 0 ≤ dt) :
    0 ≤ (s.update dt).animation_progress ∧
      (s.update dt).animation_progress ≤ 1 := by
  obtain ⟨i, n, ph, pr, rem, ca⟩ := s
  simp only at h0 h1
  cases ph <;> simp only [NotificationState.update]
  case Pending =>
    exact step_entry_bounds _ dt (le_refl 0) zero_le_one hdt
  case SlidingIn => exact step_entry_bounds _ dt h0 h1 hdt
  case Expanding => exact step_entry_bounds _ dt h0 h1 hdt
  case FadingIn => exact step_entry_bounds _ dt h0 h1 hdt
  case Dwelling =>
    unfold step_dwell
    dsimp only
    cases rem with
    | none => exact ⟨h0, h1⟩
    | some r =>
      dsimp only
      split
      · exact ⟨le_refl 0, zero_le_one⟩
      · exact ⟨h0, h1⟩
  case SlidingOut => exact step_exit_bounds _ dt h0 h1 hdt
  case Collapsing => exact step_exit_bounds _ dt h0 h1 hdt
  case FadingOut => exact step_exit_bounds _ dt h0 h1 hdt
  case Finished => exact ⟨h0, h1⟩

lemma apply_updates_progress_bounds (s : NotificationState) (dts : List ℚ)
    (h0 : 0 ≤ s.animation_progress) (h1 : s.animation_progress ≤ 1)
    (hdts : ∀ d ∈ dts, 0 ≤ d) :
    0 ≤ (apply_updates s dts).animation_progress ∧
      (apply_updates s dts).animation_progress ≤ 1 := by
  induction dts generalizing s with
  | nil => exact ⟨h0, h1⟩
  | cons d ds ih =>
    simp only [apply_updates, List.foldl_cons] at ih ⊢
    have hd : (0 : ℚ) ≤ d := hdts d (List.mem_cons_self d ds)
    have hb := update_progress_bounds s d h0 h1 hd
    exact ih _ hb.1 hb.2 fun x hx => hdts x (List.mem_cons_of_mem d hx)

lemma update_of_entry (s : NotificationState) (dt : ℚ)
    (h : is_entry s.current_phase) :
    s.update dt = step_entry s dt := by
  obtain ⟨i, n, ph, pr, rem, ca⟩ := s
  simp only [is_entry] at h
  rcases h with h | h | h <;> subst h <;> rfl

lemma update_of_exit (s : NotificationState) (dt : ℚ)
    (h : is_exit s.current_phase) :
    s.update dt = step_exit s dt := by
  obtain ⟨i, n, ph, pr, rem, ca⟩ := s
  simp only [is_exit] at h
  rcases h with h | h | h <;> subst h <;> rfl

lemma step_entry_phase_cases (s : NotificationState) (dt : ℚ) :
    (step_entry s dt).current_phase = s.current_phase ∨
      ((step_entry s dt).current_phase = .Dwelling ∧
        (step_entry s dt).animation_progress = 1) := by
  unfold step_entry
  dsimp only
  set d := resolve_timing s.notification.slide_in_timing with hddef
  set p : ℚ := if d ≤ 0 then 1 else s.animation_progress + dt / d with hpdef
  by_cases hp : (1 : ℚ) ≤ p
  · rw [if_pos hp]
    exact Or.inr ⟨rfl, rfl⟩
  · rw [if_neg hp]
    exact Or.inl rfl

lemma step_exit_phase_cases (s : NotificationState) (dt : ℚ) :
    (step_exit s dt).current_phase = s.current_phase ∨
      ((step_exit s dt).current_phase = .Finished ∧
        (step_exit s dt).animation_progress = 1) := by
  unfold step_exit
  dsimp only
  set d := resolve_timing s.notification.slide_out_timing with hddef
  set p : ℚ := if d ≤ 0 then 1 else s.animation_progress + dt / d with hpdef
  by_cases hp : (1 : ℚ) ≤ p
  · rw [if_pos hp]
    exact Or.inr ⟨rfl, rfl⟩
  · rw [if_neg hp]
    exact Or.inl rfl

lemma update_dwell_leaves_at_zero (s : NotificationState) (dt : ℚ)
    (hph : s.current_phase = .Dwelling)
    (hne : (s.update dt).current_phase ≠ .Dwelling) :
    (s.update dt).animation_progress = 0 := by
  obtain ⟨i, n, ph, pr, rem, ca⟩ := s
  simp only at hph
  subst hph
  simp only [NotificationState.update, step_dwell] at hne ⊢
  cases rem with
  | none => exact absurd rfl hne
  | some r =>
    dsimp only at hne ⊢
    split at hne
    · rename_i hle
      simp only [if_pos hle]
    · exact absurd rfl hne

/-- C9: for every notification state with in-range progress and every
sequence of `update` calls with non-negative `dt` values,
`animation_progress` stays within `[0, 1]`; an entry or exit phase is only
left with progress clamped to exactly 1.0 (entry phases are left for
`Dwelling`, which keeps the clamped 1.0, exit phases for `Finished`), and
leaving `Dwelling` resets progress to exactly 0.0 for the newly entered
exit phase. -/
theorem c9_progress_invariants (s : NotificationState)
    (h0 : 0 ≤ s.animation_progress) (h1 : s.animation_progress ≤ 1) :
    (∀ dts : List ℚ, (∀ d ∈ dts, 0 ≤ d) →
      0 ≤ (apply_updates s dts).animation_progress ∧
        (apply_updates s dts).animation_progress ≤ 1) ∧
    (∀ dt : ℚ,
      (is_entry s.current_phase → (s.update dt).current_phase ≠ s.current_phase →
        (s.update dt).current_phase = .Dwelling ∧
          (s.update dt).animation_progress = 1) ∧
      (is_exit s.current_phase → (s.update dt).current_phase ≠ s.current_phase →
        (s.update dt).current_phase = .Finished ∧
          (s.update dt).animation_progress = 1) ∧
      (s.current_phase = .Dwelling → (s.update dt).current_phase ≠ .Dwelling →
        (s.update dt).animation_progress = 0)) := by
  refine ⟨fun dts hdts => apply_updates_progress_bounds s dts h0 h1 hdts,
    fun dt => ⟨?_, ?_, fun hph hne => update_dwell_leaves_at_zero s dt hph hne⟩⟩
  · intro hent hne
    rw [update_of_entry s dt hent] at hne ⊢
    rcases step_entry_phase_cases s dt with h | h
    · exact absurd h hne
    · exact h
  · intro hex hne
    rw [update_of_exit s dt hex] at hne ⊢
    rcases step_exit_phase_cases s dt with h | h
    · exact absurd h hne
    · exact h

/-- Witness for C9: the invariants instantiated at the freshly constructed
Slide-scenario state, with the update sequence 50 ms then 500 ms. -/
theorem c9_progress_invariants_witness :
    (0 : ℚ) ≤ (NotificationState.new 1 slideScenarioNotification 0).animation_progress ∧
    (NotificationState.new 1 slideScenarioNotification 0).animation_progress ≤ 1 ∧
    (0 ≤ (apply_updates (NotificationState.new 1 slideScenarioNotification 0)
        [50, 500]).animation_progress ∧
      (apply_updates (NotificationState.new 1 slideScenarioNotification 0)
        [50, 500]).animation_progress ≤ 1) := by
  have h := c9_progress_invariants (NotificationState.new 1 slideScenarioNotification 0)
    (le_refl 0) zero_le_one
  exact ⟨le_refl 0, zero_le_one, h.1 [50, 500] (by norm_num)⟩

/-- The terminal color type (ratatui `Color`), restricted to the variants the
color-interpolation claims exercise: two RGB-representable named palette
colors, indexed palette colors (not RGB-representable), and true-color RGB. -/
inductive Color where
  | Black
  | White
  | Indexed (n : Nat)
  | Rgb (r g b : Nat)
deriving DecidableEq, Repr

/-- Modelled from the spec: `color_to_rgb`
(`src/shared_utils/math/fnc_color_to_rgb.rs`, file absent) — named palette
colors and `Rgb` values convert to channel triples, indexed colors do not
(pinned by `test_interpolate_color_non_rgb_fallback`). -/
def color_to_rgb : Color → Option (Nat × Nat × Nat)
  | .Black => some (0, 0, 0)
  | .White => some (255, 255, 255)
  | .Rgb r g b => some (r, g, b)
  | .Indexed _ => none

/-- Linear interpolation `a + (b - a) * t`, no clamping, from
`src/shared_utils/math/fnc_lerp.rs` (file absent; formula given in spec
§4.1). -/
def lerp (a b t : ℚ) : ℚ :=
  a + (b - a) * t

/-- Quadratic ease-in `t * t`, from
`src/shared_utils/math/fnc_ease_in_quad.rs`. -/
def ease_in_quad (t : ℚ) : ℚ :=
  t * t

/-- Quadratic ease-out `t * (2 - t)`, from
`src/shared_utils/math/fnc_ease_out_quad.rs` (file absent; formula given in
spec §4.1 and pinned by `test_interpolate_color_black_to_white_at_50`). -/
def ease_out_quad (t : ℚ) : ℚ :=
  t * (2 - t)

/-- Modelled from the spec (§4.1): one RGB channel of the smooth
interpolation — `lerp` at the eased progress, rounded (half away from zero;
channel values are non-negative, so this is `⌊v + 1/2⌋`), then clamped to
the channel range spanned by the two endpoints. -/
def interp_channel (a b : Nat) (e : ℚ) : Nat :=
  (min (max ⌊lerp a b e + 1 / 2⌋ (min (a : ℤ) (b : ℤ))) (max (a : ℤ) (b : ℤ))).toNat

/-- Modelled from the spec (§4.1): `interpolate_color`
(`fnc_fade_interpolate_color.rs`, file absent).  When both colors convert
to RGB, each channel is interpolated at the eased progress (ease-out when
fading in, ease-in when fading out); otherwise the color snaps at the
midpoint of the raw progress (`< 0.5` gives the from-color, else the
to-color), as pinned by `test_interpolate_color_non_rgb_fallback`.  The
Rust function maps `Option<Color>` through `Some`; the color payload is
modelled directly. -/
def interpolate_color (c1 c2 : Color) (t : ℚ) (fading_in : Bool) : Color :=
  match color_to_rgb c1, color_to_rgb c2 with
  | some (r1, g1, b1), some (r2, g2, b2) =>
    let e := if fading_in then ease_out_quad t else ease_in_quad t
    .Rgb (interp_channel r1 r2 e) (interp_channel g1 g2 e)
      (interp_channel b1 b2 e)
  | _, _ => if t < 1 / 2 then c1 else c2

lemma floor_natCast_add_half (a : Nat) : ⌊(a : ℚ) + 1 / 2⌋ = (a : ℤ) := by
  rw [Int.floor_eq_iff]
  push_cast
  constructor <;> linarith

lemma interp_channel_zero (a b : Nat) : interp_channel a b 0 = a := by
  unfold interp_channel lerp
  rw [show (a : ℚ) + ((b : ℚ) - a) * 0 = (a : ℚ) by ring]
  rw [floor_natCast_add_half]
  rw [max_eq_left (min_le_left (a : ℤ) (b : ℤ)),
    min_eq_left (le_max_left (a : ℤ) (b : ℤ))]
  exact Int.toNat_natCast a

lemma interp_channel_one (a b : Nat) : interp_channel a b 1 = b := by
  unfold interp_channel lerp
  rw [show (a : ℚ) + ((b : ℚ) - a) * 1 = (b : ℚ) by ring]
  rw [floor_natCast_add_half]
  rw [max_eq_left (min_le_right (a : ℤ) (b : ℤ)),
    min_eq_left (le_max_right (a : ℤ) (b : ℤ))]
  exact Int.toNat_natCast b

lemma ease_out_quad_zero : ease_out_quad 0 = 0 := by norm_num [ease_out_quad]

lemma ease_out_quad_one : ease_out_quad 1 = 1 := by norm_num [ease_out_quad]

lemma ease_in_quad_zero : ease_in_quad 0 = 0 := by norm_num [ease_in_quad]

lemma ease_in_quad_one : ease_in_quad 1 = 1 := by norm_num [ease_in_quad]

/-- Counterexample for C5: for the non-RGB pair `Indexed 1`, `Indexed 2` at
raw progress `t = 2/5` while fading in, the eased progress
`ease_out_quad(2/5) = 16/25` is at least the 0.5 snap threshold — so a snap
compared against the eased progress would give the to-color — yet
`interpolate_color` returns the from-color, exactly as the in-repo test
`test_interpolate_color_non_rgb_fallback` demands: the threshold is compared
against the raw progress. -/
theorem c5_counterexample_snap_uses_raw_progress :
    interpolate_color (.Indexed 1) (.Indexed 2) (2 / 5) true = .Indexed 1 ∧
    (1 : ℚ) / 2 ≤ ease_out_quad (2 / 5) ∧
    Color.Indexed 1 ≠ Color.Indexed 2 := by
  refine ⟨?_, by norm_num [ease_out_quad], by decide⟩
  unfold interpolate_color color_to_rgb
  norm_num

/-- C5 (amended): for every pair of colors not representable as RGB and every
progress `t`, `interpolate_color` returns the from-color exactly when the
raw progress `t` is below 0.5 and the to-color exactly otherwise — the snap
threshold is compared against the raw progress, not the eased progress. -/
theorem c5_amended_non_rgb_snaps_at_raw_half (c1 c2 : Color) (t : ℚ)
    (fading_in : Bool) (h1 : color_to_rgb c1 = none)
    (h2 : color_to_rgb c2 = none) :
    interpolate_color c1 c2 t fading_in = if t < 1 / 2 then c1 else c2 := by
  unfold interpolate_color
  rw [h1, h2]

/-- Witness for C5 (amended): the indexed pair at raw progress 1/4 snaps to
the from-color. -/
theorem c5_amended_non_rgb_snaps_at_raw_half_witness :
    color_to_rgb (Color.Indexed 3) = none ∧
    color_to_rgb (Color.Indexed 4) = none ∧
    interpolate_color (Color.Indexed 3) (Color.Indexed 4) (1 / 4) true =
      Color.Indexed 3 := by
  refine ⟨rfl, rfl, ?_⟩
  rw [c5_amended_non_rgb_snaps_at_raw_half (Color.Indexed 3) (Color.Indexed 4)
    (1 / 4) true rfl rfl]
  norm_num

/-- Counterexample for C6: at progress `t = 0` with `from = Black` (an
RGB-representable palette color), `interpolate_color` returns
`Rgb(0, 0, 0)` — the RGB conversion of the from-color, not the identical
color value `Black` — exactly as the in-repo test
`test_interpolate_color_black_to_white_at_0` demands. -/
theorem c6_counterexample_rgb_conversion_at_zero :
    interpolate_color .Black .White 0 true = .Rgb 0 0 0 ∧
    Color.Rgb 0 0 0 ≠ Color.Black := by
  constructor
  · unfold interpolate_color color_to_rgb
    norm_num [ease_out_quad_zero, interp_channel_zero]
  · decide

/-- C6 (amended): for every pair of input colors, `interpolate_color` at
`t = 0` returns the from-color up to RGB conversion — the `Rgb` value of its
channels when both colors are RGB-representable, the identical value
otherwise — and at `t = 1` the to-color likewise. -/
theorem c6_amended_endpoints_up_to_rgb_conversion (c1 c2 : Color)
    (fading_in : Bool) :
    interpolate_color c1 c2 0 fading_in =
      (match color_to_rgb c1, color_to_rgb c2 with
       | some (r, g, b), some _ => Color.Rgb r g b
       | _, _ => c1) ∧
    interpolate_color c1 c2 1 fading_in =
      (match color_to_rgb c1, color_to_rgb c2 with
       | some _, some (r, g, b) => Color.Rgb r g b
       | _, _ => c2) := by
  cases c1 <;> cases c2 <;> cases fading_in <;>
    constructor <;>
    unfold interpolate_color color_to_rgb <;>
    simp only [ease_out_quad_zero, ease_in_quad_zero, ease_out_quad_one,
      ease_in_quad_one, interp_channel_zero, interp_channel_one,
      Bool.false_eq_true, if_true, if_false, ite_true, ite_false] <;>
    norm_num

/-- A terminal rectangle (ratatui `Rect`): position and size in cells
(`u16` modelled as `ℕ`). -/
structure Rect where
  x : Nat
  y : Nat
  width : Nat
  height : Nat
deriving DecidableEq, Repr

/-- Modelled from the spec (§4.2): `slide_offscreen_position`
(`fnc_slide_offscreen_position.rs`, file absent) — the off-screen start/end
position for a slide direction, offset beyond the relevant frame edge(s)
with a one-cell margin; `Default` returns the full rect's own position.
The Rust function returns `f32` coordinates (which may be negative);
coordinates are modelled as `ℤ`.  Exact formulas pinned by every test in
`test_fnc_slide_offscreen_position.rs`; the `anchor` argument does not
influence the result. -/
def slide_offscreen_position (anchor : Anchor) (direction : SlideDirection)
    (full_rect frame_area : Rect) : ℤ × ℤ :=
  let left_x : ℤ := (frame_area.x : ℤ) - full_rect.width - 1
  let right_x : ℤ := (frame_area.x : ℤ) + frame_area.width + 1
  let top_y : ℤ := (frame_area.y : ℤ) - full_rect.height - 1
  let bottom_y : ℤ := (frame_area.y : ℤ) + frame_area.height + 1
  match direction with
  | .Default => ((full_rect.x : ℤ), (full_rect.y : ℤ))
  | .FromLeft => (left_x, (full_rect.y : ℤ))
  | .FromRight => (right_x, (full_rect.y : ℤ))
  | .FromTop => ((full_rect.x : ℤ), top_y)
  | .FromBottom => ((full_rect.x : ℤ), bottom_y)
  | .FromTopLeft => (left_x, top_y)
  | .FromTopRight => (right_x, top_y)
  | .FromBottomLeft => (left_x, bottom_y)
  | .FromBottomRight => (right_x, bottom_y)

/-- A rect of width `w` at `pos_x` lies strictly left of the frame (its
cells end strictly before the frame's left edge) and extends exactly
`w + 1` cells beyond that edge. -/
def outside_left_by_width (pos_x : ℤ) (w : Nat) (f : Rect) : Prop :=
  pos_x + w < f.x ∧ (f.x : ℤ) - pos_x = w + 1

/-- A rect of width `w` at `pos_x` lies strictly right of the frame and
extends exactly `w + 1` cells beyond the frame's right edge. -/
def outside_right_by_width (pos_x : ℤ) (w : Nat) (f : Rect) : Prop :=
  (f.x : ℤ) + f.width < pos_x ∧ pos_x + w - ((f.x : ℤ) + f.width) = w + 1

/-- A rect of height `h` at `pos_y` lies strictly above the frame and
extends exactly `h + 1` cells beyond the frame's top edge. -/
def outside_top_by_height (pos_y : ℤ) (h : Nat) (f : Rect) : Prop :=
  pos_y + h < f.y ∧ (f.y : ℤ) - pos_y = h + 1

/-- A rect of height `h` at `pos_y` lies strictly below the frame and
extends exactly `h + 1` cells beyond the frame's bottom edge. -/
def outside_bottom_by_height (pos_y : ℤ) (h : Nat) (f : Rect) : Prop :=
  (f.y : ℤ) + f.height < pos_y ∧ pos_y + h - ((f.y : ℤ) + f.height) = h + 1

/-- What C4 states of an off-screen position, per slide direction: strictly
outside the frame by exactly `size + 1` cells along every axis on which the
direction has a component (width plus a one-cell margin horizontally, height
plus one vertically; diagonals on both axes); `Default` returns the full
rect's own position. -/
def offscreen_spec (d : SlideDirection) (r f : Rect) (pos : ℤ × ℤ) : Prop :=
  match d with
  | .Default => pos = ((r.x : ℤ), (r.y : ℤ))
  | .FromLeft => outside_left_by_width pos.1 r.width f
  | .FromRight => outside_right_by_width pos.1 r.width f
  | .FromTop => outside_top_by_height pos.2 r.height f
  | .FromBottom => outside_bottom_by_height pos.2 r.height f
  | .FromTopLeft =>
    outside_left_by_width pos.1 r.width f ∧
      outside_top_by_height pos.2 r.height f
  | .FromTopRight =>
    outside_right_by_width pos.1 r.width f ∧
      outside_top_by_height pos.2 r.height f
  | .FromBottomLeft =>
    outside_left_by_width pos.1 r.width f ∧
      outside_bottom_by_height pos.2 r.height f
  | .FromBottomRight =>
    outside_right_by_width pos.1 r.width f ∧
      outside_bottom_by_height pos.2 r.height f

/-- C4: for every slide direction, anchor, full rect and frame area, the
position returned by `slide_offscreen_position` satisfies `offscreen_spec`:
for every direction other than `Default` it lies strictly outside the frame
by exactly `size + 1` cells along every axis on which the direction has a
component, and for `Default` it is the full rect's own position. -/
theorem c4_offscreen_position_spec (a : Anchor) (d : SlideDirection)
    (r f : Rect) :
    offscreen_spec d r f (slide_offscreen_position a d r f) := by
  cases d <;>
    simp only [slide_offscreen_position, offscreen_spec,
      outside_left_by_width, outside_right_by_width, outside_top_by_height,
      outside_bottom_by_height] <;>
    omega

/-- Modelled from the spec: the per-notification record the manager keeps
that is relevant to ID assignment and overflow (its `id -> NotificationState`
map entry in `orc_manager.rs`, file absent), restricted to the fields
overflow accounting reads: the ID, the anchor and the creation timestamp
(monotone clock modelled as `ℕ`). -/
structure ManagerEntry where
  id : Nat
  anchor : Anchor
  created_at : Nat
deriving DecidableEq, Repr

/-- Modelled from the spec: the `Notifications` manager (`orc_manager.rs`,
file absent) — the live-entry collection, the next-ID counter, the optional
global `max_concurrent` limit and the overflow policy. -/
structure Notifications where
  states : List ManagerEntry
  next_id : Nat
  max_concurrent : Option Nat
  overflow : Overflow
deriving DecidableEq, Repr

/-- `Notifications::new()`: empty, IDs from 0, no limit, `DiscardOldest`
(the default overflow, per `test_max_concurrent_setting_is_respected`). -/
def Notifications.new : Notifications :=
  { states := [], next_id := 0, max_concurrent := none,
    overflow := .DiscardOldest }

/-- Removal of the entry keyed by `v` (the map-removal the manager performs
when it evicts; removes the unique entry with that ID). -/
def remove_id (v : Nat) : List ManagerEntry → List ManagerEntry
  | [] => []
  | e :: rest => if e.id = v then rest else e :: remove_id v rest

/-- The live entries at one anchor. -/
def entries_at (a : Anchor) (l : List ManagerEntry) : List ManagerEntry :=
  l.filter fun e => e.anchor = a

/-- Modelled from the spec and pinned by `test_overflow_respects_anchor_boundaries`
and `test_overflow_discard_newest_removes_newest_when_full`: the entry the
overflow policy evicts among the live entries at the incoming notification's
anchor — the oldest there under `DiscardOldest`, the newest there under
`DiscardNewest`. -/
def eviction_candidate (o : Overflow) (a : Anchor) (l : List ManagerEntry) :
    Option ManagerEntry :=
  match o with
  | .DiscardOldest => (entries_at a l).argmin (fun e => e.created_at)
  | .DiscardNewest => (entries_at a l).argmax (fun e => e.created_at)

/-- Modelled from the spec (§4.7) with the per-anchor accounting and
immediate eviction that the manager tests pin down: `Notifications::add` —
assign the next sequential ID; if `max_concurrent` is set and the count of
live entries at the incoming notification's anchor has reached it, evict
the policy's candidate at that anchor; then insert the new entry. -/
def Notifications.add (m : Notifications) (a : Anchor) (now : Nat) :
    Nat × Notifications :=
  let after_evict :=
    match m.max_concurrent with
    | some limit =>
      if limit ≤ (entries_at a m.states).length then
        match eviction_candidate m.overflow a m.states with
        | some victim => remove_id victim.id m.states
        | none => m.states
      else m.states
    | none => m.states
  (m.next_id,
    { m with
      states := ⟨m.next_id, a, now⟩ :: after_evict
      next_id := m.next_id + 1 })

/-- The IDs of the manager's live entries. -/
def live_ids (m : Notifications) : List Nat :=
  m.states.map fun e => e.id

/-- A sequence of `add` calls (anchor and timestamp per call), returning the
assigned IDs in call order. -/
def add_all (m : Notifications) : List (Anchor × Nat) → List Nat × Notifications
  | [] => ([], m)
  | (a, t) :: rest =>
    let r := m.add a t
    let rr := add_all r.2 rest
    (r.1 :: rr.1, rr.2)

lemma add_all_ids (m : Notifications) (ops : List (Anchor × Nat)) :
    (add_all m ops).1 = List.range' m.next_id ops.length := by
  induction ops generalizing m with
  | nil => rfl
  | cons op rest ih =>
    obtain ⟨a, t⟩ := op
    simp only [add_all, Notifications.add, List.length_cons, List.range'_succ]
    rw [ih]

/-- C10: for a freshly constructed manager (any `max_concurrent` and
overflow configuration) and every sequence of `add` calls, the returned IDs
are the consecutive integers 0, 1, 2, … in call order — the first add
returns 0 and each subsequent add returns the previous ID plus one, even
when an add triggers an eviction. -/
theorem c10_ids_consecutive_from_zero (mc : Option Nat) (o : Overflow)
    (ops : List (Anchor × Nat)) :
    (add_all { Notifications.new with max_concurrent := mc, overflow := o }
      ops).1 = List.range ops.length := by
  rw [add_all_ids, List.range_eq_range']
  rfl

lemma mem_remove_id_of_ne {l : List ManagerEntry} {v : Nat} {e : ManagerEntry}
    (he : e ∈ l) (hne : e.id ≠ v) : e ∈ remove_id v l := by
  induction l with
  | nil => cases he
  | cons x rest ih =>
    rcases List.mem_cons.mp he with h | h
    · subst h
      simp only [remove_id, if_neg hne]
      exact List.mem_cons_self e _
    · by_cases hx : x.id = v
      · simpa only [remove_id, if_pos hx] using h
      · simp only [remove_id, if_neg hx]
        exact List.mem_cons_of_mem x (ih h)

lemma not_mem_map_id_remove_id {l : List ManagerEntry} {v : Nat}
    (hnd : (l.map fun e => e.id).Nodup) :
    v ∉ (remove_id v l).map fun e => e.id := by
  induction l with
  | nil => simp [remove_id]
  | cons x rest ih =>
    simp only [List.map_cons, List.nodup_cons] at hnd
    by_cases hx : x.id = v
    · simp only [remove_id, if_pos hx]
      rw [← hx]
      exact hnd.1
    · simp only [remove_id, if_neg hx, List.map_cons, List.mem_cons]
      rintro (h | h)
      · exact hx h.symm
      · exact ih hnd.2 h

/-- The manager after the first `add` of the C2 cross-anchor scenario:
`max_concurrent = 1`, `DiscardOldest`, one live notification (ID 0) at
`BottomRight`. -/
def c2ManagerBefore : Notifications :=
  (({ Notifications.new with max_concurrent := some 1 }).add .BottomRight 0).2

/-- Counterexample for C2: with `max_concurrent = 1` and `DiscardOldest`,
exactly one (N = 1) live notification exists — ID 0 at `BottomRight`, the
globally-oldest — and `add` is then called at the `TopLeft` anchor.  C2
demands that ID 0 be evicted before the insert; instead both IDs 0 and 1
are live afterwards: overflow accounting is per-anchor, exactly as
`test_multiple_anchors_track_notifications_independently` and
`test_overflow_respects_anchor_boundaries` demand. -/
theorem c2_counterexample_global_eviction_fails :
    c2ManagerBefore.max_concurrent = some 1 ∧
    c2ManagerBefore.overflow = .DiscardOldest ∧
    live_ids c2ManagerBefore = [0] ∧
    live_ids (c2ManagerBefore.add .TopLeft 10).2 = [1, 0] := by
  decide

/-- C2 (amended): overflow accounting for `max_concurrent` is per-anchor:
for every manager with `max_concurrent = limit > 0` and `DiscardOldest`,
whenever the live count at the incoming notification's anchor has reached
`limit` (with distinct IDs bounded by the next-ID counter and distinct
creation timestamps at that anchor), `add` at that anchor evicts exactly
the oldest live notification at that anchor — strictly older than every
other entry there — while the new ID becomes live, and every other
previously-live notification (any anchor) remains live. -/
theorem c2_amended_discard_oldest_per_anchor (m : Notifications) (a : Anchor)
    (now : Nat) (limit : Nat)
    (hmax : m.max_concurrent = some limit)
    (ho : m.overflow = .DiscardOldest)
    (hpos : 0 < limit)
    (hfull : limit ≤ (entries_at a m.states).length)
    (hids : (m.states.map fun e => e.id).Nodup)
    (hts : ((entries_at a m.states).map fun e => e.created_at).Nodup)
    (hbound : ∀ e ∈ m.states, e.id < m.next_id) :
    ∃ old : ManagerEntry,
      eviction_candidate .DiscardOldest a m.states = some old ∧
      old ∈ m.states ∧ old.anchor = a ∧
      (∀ e ∈ entries_at a m.states, e ≠ old →
        old.created_at < e.created_at) ∧
      (m.add a now).1 = m.next_id ∧
      old.id ∉ live_ids (m.add a now).2 ∧
      m.next_id ∈ live_ids (m.add a now).2 ∧
      (∀ e ∈ m.states, e.id ≠ old.id → e ∈ (m.add a now).2.states) := by
  have hnonempty : entries_at a m.states ≠ [] := by
    intro hempty
    rw [hempty] at hfull
    simp only [List.length_nil, Nat.le_zero] at hfull
    omega
  obtain ⟨old, hold⟩ :
      ∃ old, (entries_at a m.states).argmin (fun e => e.created_at) =
        some old := by
    cases hc : (entries_at a m.states).argmin (fun e => e.created_at) with
    | none => exact absurd (List.argmin_eq_none.mp hc) hnonempty
    | some x => exact ⟨x, rfl⟩
  have holdmem : old ∈ entries_at a m.states :=
    List.argmin_mem (Option.mem_def.mpr hold)
  have holdmem' : old ∈ m.states.filter (fun e => decide (e.anchor = a)) :=
    holdmem
  have holdstates : old ∈ m.states := (List.mem_filter.mp holdmem').1
  have holdanchor : old.anchor = a :=
    of_decide_eq_true (List.mem_filter.mp holdmem').2
  have hcand : eviction_candidate .DiscardOldest a m.states = some old := by
    simpa only [eviction_candidate] using hold
  have hstates :
      (m.add a now).2.states =
        ⟨m.next_id, a, now⟩ :: remove_id old.id m.states := by
    simp only [Notifications.add, hmax, ho, hcand, if_pos hfull]
  refine ⟨old, hcand, holdstates, holdanchor, ?_, rfl, ?_, ?_, ?_⟩
  · intro e hemem hene
    have hle : old.created_at ≤ e.created_at :=
      List.le_of_mem_argmin hemem (Option.mem_def.mpr hold)
    rcases lt_or_eq_of_le hle with hlt | heq
    · exact hlt
    · exact absurd
        (List.inj_on_of_nodup_map hts hemem holdmem heq.symm) hene
  · simp only [live_ids, hstates, List.map_cons, List.mem_cons]
    rintro (h | h)
    · exact absurd h (Nat.ne_of_lt (hbound old holdstates))
    · exact not_mem_map_id_remove_id hids h
  · simp [live_ids, hstates]
  · intro e hemem hene
    rw [hstates]
    exact List.mem_cons_of_mem _ (mem_remove_id_of_ne hemem hene)

/-- The manager of `test_overflow_discard_oldest_removes_oldest_when_full`
just before its third `add`: `max_concurrent = 2`, `DiscardOldest`, two
live notifications (IDs 0 and 1) at `BottomRight`. -/
def c2WitnessManager : Notifications :=
  ((({ Notifications.new with max_concurrent := some 2 }).add
    .BottomRight 0).2.add .BottomRight 10).2

/-- Witness for C2 (amended): the third `add` of the `DiscardOldest` test
scenario evicts exactly ID 0, the oldest at `BottomRight`. -/
theorem c2_amended_discard_oldest_per_anchor_witness :
    ∃ old : ManagerEntry,
      eviction_candidate .DiscardOldest .BottomRight
        c2WitnessManager.states = some old ∧
      old ∈ c2WitnessManager.states ∧ old.anchor = .BottomRight ∧
      (∀ e ∈ entries_at .BottomRight c2WitnessManager.states, e ≠ old →
        old.created_at < e.created_at) ∧
      (c2WitnessManager.add .BottomRight 20).1 = c2WitnessManager.next_id ∧
      old.id ∉ live_ids (c2WitnessManager.add .BottomRight 20).2 ∧
      c2WitnessManager.next_id ∈
        live_ids (c2WitnessManager.add .BottomRight 20).2 ∧
      (∀ e ∈ c2WitnessManager.states, e.id ≠ old.id →
        e ∈ (c2WitnessManager.add .BottomRight 20).2.states) :=
  c2_amended_discard_oldest_per_anchor c2WitnessManager .BottomRight 20 2
    (by decide) (by decide) (by decide) (by decide) (by decide) (by decide)
    (by decide)

/-- The manager of `test_overflow_discard_newest_removes_newest_when_full`
just before its third `add`: `max_concurrent = 2`, `DiscardNewest`, two
live notifications (IDs 0 and 1) at `TopLeft`. -/
def c3ManagerBefore : Notifications :=
  (((Notifications.mk [] 0 (some 2) .DiscardNewest).add
    .TopLeft 0).2.add .TopLeft 10).2

/-- Counterexample for C3: with `max_concurrent = 2` and `DiscardNewest`,
two live notifications (IDs 0 and 1) exist at `TopLeft` and a third `add`
arrives there.  C3 demands the incoming notification (ID 2) be immediately
removed with IDs 0 and 1 both remaining live; instead the previously-live
newest (ID 1) is evicted and the incoming ID 2 stays live, exactly as
`test_overflow_discard_newest_removes_newest_when_full` demands. -/
theorem c3_counterexample_incoming_not_evicted :
    live_ids c3ManagerBefore = [1, 0] ∧
    (c3ManagerBefore.add .TopLeft 20).1 = 2 ∧
    live_ids (c3ManagerBefore.add .TopLeft 20).2 = [2, 0] := by
  decide

/-- C3 (amended): with `max_concurrent = limit > 0` and `DiscardNewest`,
when `add` is called while the live count at the incoming notification's
anchor has reached `limit` (with distinct IDs bounded by the next-ID
counter and distinct creation timestamps at that anchor), the evicted
notification is the newest previously-live one at that anchor — strictly
newer than every other entry there — while the incoming notification is
assigned the next ID, that ID is returned, and it remains live, as does
every other previously-live notification. -/
theorem c3_amended_discard_newest_evicts_previous_newest (m : Notifications)
    (a : Anchor) (now : Nat) (limit : Nat)
    (hmax : m.max_concurrent = some limit)
    (ho : m.overflow = .DiscardNewest)
    (hpos : 0 < limit)
    (hfull : limit ≤ (entries_at a m.states).length)
    (hids : (m.states.map fun e => e.id).Nodup)
    (hts : ((entries_at a m.states).map fun e => e.created_at).Nodup)
    (hbound : ∀ e ∈ m.states, e.id < m.next_id) :
    ∃ newest : ManagerEntry,
      eviction_candidate .DiscardNewest a m.states = some newest ∧
      newest ∈ m.states ∧ newest.anchor = a ∧
      (∀ e ∈ entries_at a m.states, e ≠ newest →
        e.created_at < newest.created_at) ∧
      (m.add a now).1 = m.next_id ∧
      newest.id ∉ live_ids (m.add a now).2 ∧
      m.next_id ∈ live_ids (m.add a now).2 ∧
      (∀ e ∈ m.states, e.id ≠ newest.id → e ∈ (m.add a now).2.states) := by
  have hnonempty : entries_at a m.states ≠ [] := by
    intro hempty
    rw [hempty] at hfull
    simp only [List.length_nil, Nat.le_zero] at hfull
    omega
  obtain ⟨nw, hnw⟩ :
      ∃ nw, (entries_at a m.states).argmax (fun e => e.created_at) =
        some nw := by
    cases hc : (entries_at a m.states).argmax (fun e => e.created_at) with
    | none => exact absurd (List.argmax_eq_none.mp hc) hnonempty
    | some x => exact ⟨x, rfl⟩
  have hnwmem : nw ∈ entries_at a m.states :=
    List.argmax_mem (Option.mem_def.mpr hnw)
  have hnwmem' : nw ∈ m.states.filter (fun e => decide (e.anchor = a)) :=
    hnwmem
  have hnwstates : nw ∈ m.states := (List.mem_filter.mp hnwmem').1
  have hnwanchor : nw.anchor = a :=
    of_decide_eq_true (List.mem_filter.mp hnwmem').2
  have hcand : eviction_candidate .DiscardNewest a m.states = some nw := by
    simpa only [eviction_candidate] using hnw
  have hstates :
      (m.add a now).2.states =
        ⟨m.next_id, a, now⟩ :: remove_id nw.id m.states := by
    simp only [Notifications.add, hmax, ho, hcand, if_pos hfull]
  refine ⟨nw, hcand, hnwstates, hnwanchor, ?_, rfl, ?_, ?_, ?_⟩
  · intro e hemem hene
    have hle : e.created_at ≤ nw.created_at :=
      List.le_of_mem_argmax hemem (Option.mem_def.mpr hnw)
    rcases lt_or_eq_of_le hle with hlt | heq
    · exact hlt
    · exact absurd (List.inj_on_of_nodup_map hts hemem hnwmem heq) hene
  · simp only [live_ids, hstates, List.map_cons, List.mem_cons]
    rintro (h | h)
    · exact absurd h (Nat.ne_of_lt (hbound nw hnwstates))
    · exact not_mem_map_id_remove_id hids h
  · simp [live_ids, hstates]
  · intro e hemem hene
    rw [hstates]
    exact List.mem_cons_of_mem _ (mem_remove_id_of_ne hemem hene)

/-- Witness for C3 (amended): the third `add` of the `DiscardNewest` test
scenario evicts exactly ID 1, the newest previously live at `TopLeft`,
while the incoming ID 2 stays live. -/
theorem c3_amended_discard_newest_evicts_previous_newest_witness :
    ∃ newest : ManagerEntry,
      eviction_candidate .DiscardNewest .TopLeft
        c3ManagerBefore.states = some newest ∧
      newest ∈ c3ManagerBefore.states ∧ newest.anchor = .TopLeft ∧
      (∀ e ∈ entries_at .TopLeft c3ManagerBefore.states, e ≠ newest →
        e.created_at < newest.created_at) ∧
      (c3ManagerBefore.add .TopLeft 20).1 = c3ManagerBefore.next_id ∧
      newest.id ∉ live_ids (c3ManagerBefore.add .TopLeft 20).2 ∧
      c3ManagerBefore.next_id ∈
        live_ids (c3ManagerBefore.add .TopLeft 20).2 ∧
      (∀ e ∈ c3ManagerBefore.states, e.id ≠ newest.id →
        e ∈ (c3ManagerBefore.add .TopLeft 20).2.states) :=
  c3_amended_discard_newest_evicts_previous_newest c3ManagerBefore .TopLeft
    20 2 (by decide) (by decide) (by decide) (by decide) (by decide)
    (by decide) (by decide)

/-- Modelled from the spec: the view of one notification state that the
stacking orchestrator reads (the `StackableNotification` trait surface in
`orc_stacking.rs`, file absent): ID, phase, creation timestamp and content
size (the full rect's width and height; the exterior padding of the trait is
not exercised by the claims and is omitted). -/
structure StackEntry where
  id : Nat
  current_phase : AnimationPhase
  created_at : Nat
  width : Nat
  height : Nat
deriving DecidableEq, Repr

/-- One entry of the stacking result (`StackedNotification { id, rect }`);
the rect's fields are inlined, with coordinates in `ℤ`. -/
structure StackedNotification where
  id : Nat
  x : ℤ
  y : ℤ
  width : Nat
  height : Nat
deriving DecidableEq, Repr

/-- The anchor sits on the top row of the 3×3 grid. -/
def anchor_is_top : Anchor → Bool
  | .TopLeft | .TopCenter | .TopRight => true
  | _ => false

/-- The anchor sits on the bottom row of the 3×3 grid. -/
def anchor_is_bottom : Anchor → Bool
  | .BottomLeft | .BottomCenter | .BottomRight => true
  | _ => false

/-- Modelled from the spec (§4.6 step 4): the horizontal position of a
stacked rect of width `w`, per the anchor's column (left edge, centered, or
right edge of the frame). -/
def anchor_x (a : Anchor) (frame : Rect) (w : Nat) : ℤ :=
  match a with
  | .TopLeft | .MiddleLeft | .BottomLeft => (frame.x : ℤ)
  | .TopCenter | .MiddleCenter | .BottomCenter =>
    (frame.x : ℤ) + ((frame.width : ℤ) - w) / 2
  | .TopRight | .MiddleRight | .BottomRight =>
    (frame.x : ℤ) + frame.width - w

/-- Modelled from the spec (§4.6 steps 4–5): downward placement walk (top
and middle rows).  Each rect is placed at the running `y` if it still fits
above the frame's bottom bound, with one cell of spacing before the next;
the walk stops at the first rect that would extend past the bound. -/
def place_down (a : Anchor) (frame : Rect) :
    List StackEntry → ℤ → List StackedNotification
  | [], _ => []
  | e :: rest, y =>
    if y + (e.height : ℤ) ≤ (frame.y : ℤ) + frame.height then
      { id := e.id, x := anchor_x a frame e.width, y := y,
        width := e.width, height := e.height } ::
        place_down a frame rest (y + e.height + 1)
    else []

/-- Modelled from the spec (§4.6 steps 4–5): upward placement walk (bottom
rows).  Each rect's bottom sits at the running bound `yb`; the walk stops at
the first rect whose top would rise past the frame's top bound. -/
def place_up (a : Anchor) (frame : Rect) :
    List StackEntry → ℤ → List StackedNotification
  | [], _ => []
  | e :: rest, yb =>
    if (frame.y : ℤ) ≤ yb - e.height then
      { id := e.id, x := anchor_x a frame e.width, y := yb - e.height,
        width := e.width, height := e.height } ::
        place_up a frame rest (yb - e.height - 1)
    else []

/-- Modelled from the spec (§4.6 step 4): the placement walk per anchor row.
Bottom anchors stack upward from the frame's bottom bound; top anchors stack
downward from the frame's top; middle rows use the implementation-chosen
downward direction starting at the frame's vertical midpoint. -/
def place_entries (a : Anchor) (frame : Rect) (l : List StackEntry) :
    List StackedNotification :=
  if anchor_is_bottom a then
    place_up a frame l ((frame.y : ℤ) + frame.height)
  else if anchor_is_top a then
    place_down a frame l (frame.y : ℤ)
  else
    place_down a frame l ((frame.y : ℤ) + (frame.height / 2 : Nat))

/-- The recency order the orchestrator sorts by (§4.6 step 2): `x` is at
least as recently created as `y`. -/
def newer_first (x y : StackEntry) : Prop :=
  y.created_at ≤ x.created_at

instance : DecidableRel newer_first :=
  fun x y => Nat.decLe y.created_at x.created_at

instance : IsTotal StackEntry newer_first :=
  ⟨fun a b => le_total b.created_at a.created_at⟩

instance : IsTrans StackEntry newer_first :=
  ⟨fun _ _ _ h1 h2 => le_trans h2 h1⟩

/-- Modelled from the spec (§4.6 step 1): the eligible entries — the states
found for the IDs at this anchor whose phase is neither `Pending` nor
`Finished`. -/
def eligible_entries (states : List StackEntry) (ids : List Nat) :
    List StackEntry :=
  (ids.filterMap fun i => states.find? fun e => e.id = i).filter
    fun e => ¬e.current_phase = .Pending ∧ ¬e.current_phase = .Finished

/-- Modelled from the spec (§4.6 step 2): sort by creation timestamp
descending, newest first (a stable sort). -/
def sorted_by_newest (l : List StackEntry) : List StackEntry :=
  List.insertionSort newer_first l

/-- Modelled from the spec (§4.6 step 3): truncate to `max_concurrent` when
it is set, keeping the newest. -/
def limit_concurrent (mc : Option Nat) (l : List StackEntry) :
    List StackEntry :=
  match mc with
  | some k => l.take k
  | none => l

/-- Modelled from the spec (§4.6): `calculate_stacking_positions`
(`orc_stacking.rs`, file absent) — filter the IDs at this anchor to the
eligible entries, sort newest first, truncate to `max_concurrent`, then walk
the placement until the frame's usable bound is hit. -/
def calculate_stacking_positions (states : List StackEntry) (a : Anchor)
    (ids : List Nat) (frame : Rect) (mc : Option Nat) :
    List StackedNotification :=
  place_entries a frame
    (limit_concurrent mc (sorted_by_newest (eligible_entries states ids)))

/-- The `max_concurrent`-truncated newest-first prefix of the eligible
entries. -/
def top_k_eligible (states : List StackEntry) (ids : List Nat) (k : Nat) :
    List StackEntry :=
  (sorted_by_newest (eligible_entries states ids)).take k

/-- The vertical space the placement walk needs for `l`: the heights plus
one cell of spacing between consecutive rects. -/
def required_height (l : List StackEntry) : ℤ :=
  (l.map fun e => (e.height : ℤ) + 1).sum - 1

/-- The vertical space the placement walk has, per anchor row. -/
def avail_height (a : Anchor) (frame : Rect) : ℤ :=
  if anchor_is_bottom a then (frame.height : ℤ)
  else if anchor_is_top a then (frame.height : ℤ)
  else (frame.height : ℤ) - (frame.height / 2 : Nat)

lemma required_height_neg_one_le (l : List StackEntry) :
    -1 ≤ required_height l := by
  unfold required_height
  have hsum : 0 ≤ (l.map fun e => (e.height : ℤ) + 1).sum := by
    refine List.sum_nonneg ?_
    intro x hx
    obtain ⟨e, _, rfl⟩ := List.mem_map.mp hx
    positivity
  omega

lemma required_height_cons (e : StackEntry) (l : List StackEntry) :
    required_height (e :: l) = (e.height : ℤ) + 1 + required_height l := by
  unfold required_height
  simp only [List.map_cons, List.sum_cons]
  ring

lemma place_down_ids_all (a : Anchor) (frame : Rect) (l : List StackEntry)
    (y : ℤ) (h : required_height l ≤ (frame.y : ℤ) + frame.height - y) :
    ((place_down a frame l y).map fun r => r.id) = l.map fun e => e.id := by
  induction l generalizing y with
  | nil => rfl
  | cons e rest ih =>
    have hge := required_height_neg_one_le rest
    rw [required_height_cons] at h
    have hfit : y + (e.height : ℤ) ≤ (frame.y : ℤ) + frame.height := by omega
    simp only [place_down, if_pos hfit, List.map_cons, List.cons.injEq]
    exact ⟨trivial, ih (y + e.height + 1) (by omega)⟩

lemma place_up_ids_all (a : Anchor) (frame : Rect) (l : List StackEntry)
    (yb : ℤ) (h : required_height l ≤ yb - frame.y) :
    ((place_up a frame l yb).map fun r => r.id) = l.map fun e => e.id := by
  induction l generalizing yb with
  | nil => rfl
  | cons e rest ih =>
    have hge := required_height_neg_one_le rest
    rw [required_height_cons] at h
    have hfit : (frame.y : ℤ) ≤ yb - e.height := by omega
    simp only [place_up, if_pos hfit, List.map_cons, List.cons.injEq]
    exact ⟨trivial, ih (yb - e.height - 1) (by omega)⟩

lemma place_entries_ids_all (a : Anchor) (frame : Rect) (l : List StackEntry)
    (h : required_height l ≤ avail_height a frame) :
    ((place_entries a frame l).map fun r => r.id) = l.map fun e => e.id := by
  unfold place_entries
  unfold avail_height at h
  by_cases hb : anchor_is_bottom a = true
  · rw [if_pos hb] at h
    simp only [hb, if_true]
    exact place_up_ids_all a frame l _ (by omega)
  · rw [if_neg hb] at h
    simp only [hb, Bool.false_eq_true, if_false]
    by_cases ht : anchor_is_top a = true
    · rw [if_pos ht] at h
      simp only [ht, if_true]
      exact place_down_ids_all a frame l _ (by omega)
    · rw [if_neg ht] at h
      simp only [ht, Bool.false_eq_true, if_false]
      exact place_down_ids_all a frame l _ (by omega)

lemma mem_place_down {a : Anchor} {frame : Rect} {l : List StackEntry}
    {y : ℤ} {r : StackedNotification} (h : r ∈ place_down a frame l y) :
    ∃ e ∈ l, r.id = e.id := by
  induction l generalizing y with
  | nil => cases h
  | cons e rest ih =>
    simp only [place_down] at h
    split at h
    · rcases List.mem_cons.mp h with hr | hr
      · exact ⟨e, List.mem_cons_self e rest, by rw [hr]⟩
      · obtain ⟨x, hx, hid⟩ := ih hr
        exact ⟨x, List.mem_cons_of_mem e hx, hid⟩
    · cases h

lemma mem_place_up {a : Anchor} {frame : Rect} {l : List StackEntry}
    {yb : ℤ} {r : StackedNotification} (h : r ∈ place_up a frame l yb) :
    ∃ e ∈ l, r.id = e.id := by
  induction l generalizing yb with
  | nil => cases h
  | cons e rest ih =>
    simp only [place_up] at h
    split at h
    · rcases List.mem_cons.mp h with hr | hr
      · exact ⟨e, List.mem_cons_self e rest, by rw [hr]⟩
      · obtain ⟨x, hx, hid⟩ := ih hr
        exact ⟨x, List.mem_cons_of_mem e hx, hid⟩
    · cases h

lemma mem_place_entries {a : Anchor} {frame : Rect} {l : List StackEntry}
    {r : StackedNotification} (h : r ∈ place_entries a frame l) :
    ∃ e ∈ l, r.id = e.id := by
  unfold place_entries at h
  split at h
  · exact mem_place_up h
  · split at h
    · exact mem_place_down h
    · exact mem_place_down h

lemma mem_limit_concurrent {mc : Option Nat} {l : List StackEntry}
    {e : StackEntry} (h : e ∈ limit_concurrent mc l) : e ∈ l := by
  cases mc with
  | none => exact h
  | some k => exact List.take_subset k l h

lemma eligible_entries_good_phase {states : List StackEntry} {ids : List Nat}
    {e : StackEntry} (he : e ∈ eligible_entries states ids) :
    ¬e.current_phase = .Pending ∧ ¬e.current_phase = .Finished := by
  unfold eligible_entries at he
  exact of_decide_eq_true (List.mem_filter.mp he).2

lemma sorted_by_newest_perm (l : List StackEntry) :
    List.Perm (sorted_by_newest l) l :=
  List.perm_insertionSort newer_first l

lemma sorted_by_newest_sorted (l : List StackEntry) :
    List.Sorted newer_first (sorted_by_newest l) :=
  List.sorted_insertionSort newer_first l

/-- C7: for every snapshot of states, every anchor and every
`max_concurrent`, `calculate_stacking_positions` never includes a
notification whose phase is `Pending` or `Finished`; and when
`max_concurrent = k` is given with more than `k` eligible notifications at
the anchor (distinct creation timestamps) and enough frame space for the
`k` newest, it returns exactly `k` entries — the `k` most-recently-created
eligible notifications (each strictly newer than every excluded eligible
one), ordered newest first. -/
theorem c7_stacking_truncates_to_newest (states : List StackEntry)
    (a : Anchor) (ids : List Nat) (frame : Rect) :
    (∀ mc : Option Nat,
      ∀ r ∈ calculate_stacking_positions states a ids frame mc,
        ∃ e ∈ eligible_entries states ids, r.id = e.id ∧
          ¬e.current_phase = .Pending ∧ ¬e.current_phase = .Finished) ∧
    ∀ k : Nat,
      (((eligible_entries states ids).map fun e => e.created_at).Nodup) →
      k < (eligible_entries states ids).length →
      required_height (top_k_eligible states ids k) ≤ avail_height a frame →
      (calculate_stacking_positions states a ids frame (some k)).length = k ∧
      ((calculate_stacking_positions states a ids frame (some k)).map
          fun r => r.id) =
        (top_k_eligible states ids k).map (fun e => e.id) ∧
      (top_k_eligible states ids k).Pairwise
        (fun x y => y.created_at < x.created_at) ∧
      ∀ e ∈ eligible_entries states ids, e ∉ top_k_eligible states ids k →
        ∀ x ∈ top_k_eligible states ids k, e.created_at < x.created_at := by
  constructor
  · intro mc r hr
    unfold calculate_stacking_positions at hr
    obtain ⟨e, heL, hid⟩ := mem_place_entries hr
    have hes : e ∈ sorted_by_newest (eligible_entries states ids) :=
      mem_limit_concurrent heL
    have helig : e ∈ eligible_entries states ids :=
      (sorted_by_newest_perm (eligible_entries states ids)).mem_iff.mp hes
    exact ⟨e, helig, hid, eligible_entries_good_phase helig⟩
  · intro k hnd hlen hfit
    have hperm := sorted_by_newest_perm (eligible_entries states ids)
    have hslen : (sorted_by_newest (eligible_entries states ids)).length =
        (eligible_entries states ids).length := hperm.length_eq
    have hcalc : calculate_stacking_positions states a ids frame (some k) =
        place_entries a frame (top_k_eligible states ids k) := rfl
    have hmap : ((calculate_stacking_positions states a ids frame
          (some k)).map fun r => r.id) =
        (top_k_eligible states ids k).map (fun e => e.id) := by
      rw [hcalc]
      exact place_entries_ids_all a frame _ hfit
    have hklen : (top_k_eligible states ids k).length = k := by
      unfold top_k_eligible
      rw [List.length_take, hslen]
      omega
    have hndsorted :
        ((sorted_by_newest (eligible_entries states ids)).map
          fun e => e.created_at).Nodup :=
      (hperm.map fun e => e.created_at).nodup_iff.mpr hnd
    have hnesorted : (sorted_by_newest (eligible_entries states ids)).Pairwise
        fun x y => x.created_at ≠ y.created_at :=
      List.pairwise_map.mp hndsorted
    have hsorted := sorted_by_newest_sorted (eligible_entries states ids)
    refine ⟨?_, hmap, ?_, ?_⟩
    · have := congrArg List.length hmap
      simpa only [List.length_map, hklen] using this
    · have htake : (top_k_eligible states ids k).Pairwise newer_first :=
        List.Pairwise.sublist (List.take_sublist k _) hsorted
      have hnetake : (top_k_eligible states ids k).Pairwise
          fun x y => x.created_at ≠ y.created_at :=
        List.Pairwise.sublist (List.take_sublist k _) hnesorted
      exact (htake.and hnetake).imp fun h =>
        lt_of_le_of_ne h.1 (Ne.symm h.2)
    · intro e he henot x hx
      have hesorted : e ∈ sorted_by_newest (eligible_entries states ids) :=
        hperm.mem_iff.mpr he
      have hxsorted : x ∈ sorted_by_newest (eligible_entries states ids) :=
        List.take_subset k _ hx
      have hsplit : e ∈ (sorted_by_newest (eligible_entries states ids)).take k ++
          (sorted_by_newest (eligible_entries states ids)).drop k := by
        rw [List.take_append_drop]
        exact hesorted
      have hedrop : e ∈ (sorted_by_newest (eligible_entries states ids)).drop k := by
        rcases List.mem_append.mp hsplit with h | h
        · exact absurd h henot
        · exact h
      have hpwapp := hsorted
      rw [← List.take_append_drop k
        (sorted_by_newest (eligible_entries states ids))] at hpwapp
      obtain ⟨-, -, hcross⟩ := List.pairwise_append.mp hpwapp
      have hle : e.created_at ≤ x.created_at := hcross x hx e hedrop
      rcases lt_or_eq_of_le hle with hlt | heq
      · exact hlt
      · exfalso
        have : e = x :=
          List.inj_on_of_nodup_map hndsorted hesorted hxsorted heq
        rw [this] at henot
        exact henot hx

/-- The ten Dwelling entries of `test_max_concurrent_limit_respected`:
IDs 1..10, creation timestamps 10·ID, each 40×10 cells. -/
def c7WitnessStates : List StackEntry :=
  (List.range 10).map fun i =>
    { id := i + 1, current_phase := .Dwelling, created_at := (i + 1) * 10,
      width := 40, height := 10 }

/-- Witness for C7: ten eligible notifications at `BottomRight`,
`max_concurrent = 3`, a 100×200 frame — exactly the three newest (IDs 10,
9, 8) are returned, newest first. -/
theorem c7_stacking_truncates_to_newest_witness :
    ((calculate_stacking_positions c7WitnessStates .BottomRight
        (List.range' 1 10) (Rect.mk 0 0 100 200) (some 3)).length = 3 ∧
      ((calculate_stacking_positions c7WitnessStates .BottomRight
          (List.range' 1 10) (Rect.mk 0 0 100 200) (some 3)).map
          fun r => r.id) =
        (top_k_eligible c7WitnessStates (List.range' 1 10) 3).map
          (fun e => e.id) ∧
      (top_k_eligible c7WitnessStates (List.range' 1 10) 3).Pairwise
        (fun x y => y.created_at < x.created_at) ∧
      ∀ e ∈ eligible_entries c7WitnessStates (List.range' 1 10),
        e ∉ top_k_eligible c7WitnessStates (List.range' 1 10) 3 →
        ∀ x ∈ top_k_eligible c7WitnessStates (List.range' 1 10) 3,
          e.created_at < x.created_at) ∧
    ((top_k_eligible c7WitnessStates (List.range' 1 10) 3).map
      (fun e => e.id)) = [10, 9, 8] :=
  ⟨(c7_stacking_truncates_to_newest c7WitnessStates .BottomRight
      (List.range' 1 10) (Rect.mk 0 0 100 200)).2 3 (by decide) (by decide)
      (by decide),
   by decide⟩
